import Mathlib

/-!
Verification of the workspace search-and-edit subsystem: a shallow embedding
of the file-manager, command-execution, request-validation and routing code,
together with theorems about the embedded definitions.

Conventions of the embedding:
- Python strings are modelled as `List Char` (Unicode scalar values).
- Python `int` is modelled as `Int`; list indices as `Nat`.
- The external shell tools invoked by the code (`sed`, `nl`, `base64`,
  `shlex.quote`) are modelled by explicit Lean functions whose doc comments
  state the modelled behaviour.
- Fallible operations return `Except` / `Option`; an uncaught Python
  exception is an `Except.error` value.
-/

namespace Shpbl

/-! Section: Line-range merger (`create_line_ranges_with_context`) -/

/-- Initial context window for one matched line, as built in the source:
`start = max(1, line - context_lines)`, `end = line + context_lines`. -/
def mkRange (context_lines : Int) (line : Int) : Int × Int :=
  (max 1 (line - context_lines), line + context_lines)

/-- Lexicographic order on pairs of integers; this is the order used by
Python `list.sort()` on 2-tuples. -/
def lexLe (a b : Int × Int) : Prop :=
  a.1 < b.1 ∨ (a.1 = b.1 ∧ a.2 ≤ b.2)

instance : DecidableRel lexLe := fun a b =>
  inferInstanceAs (Decidable (a.1 < b.1 ∨ (a.1 = b.1 ∧ a.2 ≤ b.2)))

instance : IsTotal (Int × Int) lexLe :=
  ⟨by
    intro a b
    rcases lt_trichotomy a.1 b.1 with h | h | h
    · exact Or.inl (Or.inl h)
    · rcases le_total a.2 b.2 with h2 | h2
      · exact Or.inl (Or.inr ⟨h, h2⟩)
      · exact Or.inr (Or.inr ⟨h.symm, h2⟩)
    · exact Or.inr (Or.inl h)⟩

instance : IsTrans (Int × Int) lexLe :=
  ⟨by
    intro a b c hab hbc
    rcases hab with h | ⟨h, h2⟩ <;> rcases hbc with h3 | ⟨h3, h4⟩
    · exact Or.inl (h.trans h3)
    · exact Or.inl (h3 ▸ h)
    · exact Or.inl (h ▸ h3)
    · exact Or.inr ⟨h.trans h3, h2.trans h4⟩⟩

/-- Merge sweep of the source: `merged` starts as `[ranges[0]]` and each next
range either extends the last merged range (when `current_start <= last_end + 1`)
or is appended as a new range.  The Python loop mutates `merged[-1]`; here the
current last range is the first argument. -/
def mergeLoop : (Int × Int) → List (Int × Int) → List (Int × Int)
  | last, [] => [last]
  | last, (cs, ce) :: rest =>
    if cs ≤ last.2 + 1 then mergeLoop (last.1, max last.2 ce) rest
    else last :: mergeLoop (cs, ce) rest

/-- Embedding of `create_line_ranges_with_context`: build a context window per
line number, sort the windows lexicographically, then run the merge sweep.
The empty-input early return of the source coincides with the `[]` match arm. -/
def create_line_ranges_with_context (line_numbers : List Int) (context_lines : Int) :
    List (Int × Int) :=
  match List.insertionSort lexLe (line_numbers.map (mkRange context_lines)) with
  | [] => []
  | r :: rest => mergeLoop r rest

theorem mergeLoop_head (last : Int × Int) (l : List (Int × Int)) :
    ∃ e tl, mergeLoop last l = (last.1, e) :: tl := by
  induction l generalizing last with
  | nil => exact ⟨last.2, [], by simp [mergeLoop]⟩
  | cons p rest ih =>
    obtain ⟨cs, ce⟩ := p
    by_cases h : cs ≤ last.2 + 1
    · obtain ⟨e, tl, ht⟩ := ih (last.1, max last.2 ce)
      exact ⟨e, tl, by simpa [mergeLoop, h] using ht⟩
    · exact ⟨last.2, mergeLoop (cs, ce) rest, by simp [mergeLoop, h]⟩

theorem mergeLoop_spec (last : Int × Int) (l : List (Int × Int))
    (hs : l.Pairwise (fun a b => a.1 ≤ b.1))
    (hge : ∀ r ∈ l, last.1 ≤ r.1) :
    (mergeLoop last l).Chain' (fun a b => a.1 ≤ b.1) ∧
    (mergeLoop last l).Chain' (fun a b => a.2 < b.1 - 1) ∧
    ∀ r ∈ last :: l, ∃ m ∈ mergeLoop last l, m.1 ≤ r.1 ∧ r.2 ≤ m.2 := by
  induction l generalizing last with
  | nil =>
    refine ⟨by simp [mergeLoop], by simp [mergeLoop], ?_⟩
    intro r hr
    simp only [List.mem_singleton] at hr
    subst hr
    exact ⟨r, by simp [mergeLoop]⟩
  | cons p rest ih =>
    obtain ⟨cs, ce⟩ := p
    rw [List.pairwise_cons] at hs
    have hlastcs : last.1 ≤ cs := hge (cs, ce) (by simp)
    by_cases h : cs ≤ last.2 + 1
    · have hge2 : ∀ r ∈ rest, (last.1, max last.2 ce).1 ≤ r.1 := by
        intro r hr
        exact le_trans hlastcs (hs.1 r hr)
      obtain ⟨h1, h2, h3⟩ := ih (last.1, max last.2 ce) hs.2 hge2
      have heq : mergeLoop last ((cs, ce) :: rest) =
          mergeLoop (last.1, max last.2 ce) rest := by
        simp [mergeLoop, h]
      refine ⟨heq ▸ h1, heq ▸ h2, ?_⟩
      intro q hq
      rw [heq]
      rcases List.mem_cons.mp hq with hq | hq
      · obtain ⟨m, hm, hm1, hm2⟩ := h3 (last.1, max last.2 ce) (by simp)
        refine ⟨m, hm, ?_, ?_⟩
        · rw [hq]; exact hm1
        · rw [hq]; exact le_trans (le_max_left _ _) hm2
      rcases List.mem_cons.mp hq with hq | hq
      · obtain ⟨m, hm, hm1, hm2⟩ := h3 (last.1, max last.2 ce) (by simp)
        refine ⟨m, hm, ?_, ?_⟩
        · rw [hq]; exact le_trans hm1 hlastcs
        · rw [hq]; exact le_trans (le_max_right _ _) hm2
      · obtain ⟨m, hm, hm1, hm2⟩ := h3 q (List.mem_cons_of_mem _ hq)
        exact ⟨m, hm, hm1, hm2⟩
    · obtain ⟨h1, h2, h3⟩ := ih (cs, ce) hs.2 hs.1
      obtain ⟨e, tl, htl⟩ := mergeLoop_head (cs, ce) rest
      have heq : mergeLoop last ((cs, ce) :: rest) =
          last :: mergeLoop (cs, ce) rest := by
        simp [mergeLoop, h]
      refine ⟨?_, ?_, ?_⟩
      · rw [heq, List.chain'_cons']
        refine ⟨?_, h1⟩
        intro b hb
        rw [htl] at hb
        simp only [List.head?_cons, Option.mem_def, Option.some.injEq] at hb
        subst hb
        exact hlastcs
      · rw [heq, List.chain'_cons']
        refine ⟨?_, h2⟩
        intro b hb
        rw [htl] at hb
        simp only [List.head?_cons, Option.mem_def, Option.some.injEq] at hb
        subst hb
        show last.2 < cs - 1
        omega
      · intro q hq
        rw [heq]
        rcases List.mem_cons.mp hq with hq | hq
        · refine ⟨last, List.mem_cons_self _ _, ?_, ?_⟩ <;> rw [hq]
        · obtain ⟨m, hm, hm1, hm2⟩ := h3 q hq
          exact ⟨m, List.mem_cons_of_mem _ hm, hm1, hm2⟩

/-- C1: the merged ranges are sorted by start, strongly disjoint
(`end < next start - 1`), and their union covers every context window
`[n - context, n + context]` clamped to 1 at the low end. -/
theorem line_ranges_sorted_disjoint_cover (line_numbers : List Int) (context_lines : Int) :
    (create_line_ranges_with_context line_numbers context_lines).Chain'
      (fun a b => a.1 ≤ b.1) ∧
    (create_line_ranges_with_context line_numbers context_lines).Chain'
      (fun a b => a.2 < b.1 - 1) ∧
    ∀ n ∈ line_numbers, ∀ x : Int,
      max 1 (n - context_lines) ≤ x → x ≤ n + context_lines →
      ∃ m ∈ create_line_ranges_with_context line_numbers context_lines,
        m.1 ≤ x ∧ x ≤ m.2 := by
  have hsorted : (List.insertionSort lexLe
      (line_numbers.map (mkRange context_lines))).Pairwise lexLe :=
    List.sorted_insertionSort lexLe _
  have hperm : List.Perm
      (List.insertionSort lexLe (line_numbers.map (mkRange context_lines)))
      (line_numbers.map (mkRange context_lines)) :=
    List.perm_insertionSort lexLe _
  have hstart : (List.insertionSort lexLe
      (line_numbers.map (mkRange context_lines))).Pairwise (fun a b => a.1 ≤ b.1) := by
    refine hsorted.imp ?_
    intro a b hab
    rcases hab with hab | ⟨hab, _⟩
    · exact le_of_lt hab
    · exact le_of_eq hab
  cases hScase : List.insertionSort lexLe (line_numbers.map (mkRange context_lines)) with
  | nil =>
    have hmapnil : line_numbers.map (mkRange context_lines) = [] := by
      have hp := hperm
      rw [hScase] at hp
      exact hp.symm.eq_nil
    have hnil : line_numbers = [] := List.map_eq_nil_iff.mp hmapnil
    subst hnil
    refine ⟨?_, ?_, ?_⟩
    · simp [create_line_ranges_with_context]
    · simp [create_line_ranges_with_context]
    · intro n hn
      simp at hn
  | cons r rest =>
    rw [hScase] at hstart hperm
    rw [List.pairwise_cons] at hstart
    obtain ⟨hc1, hc2, hcov⟩ := mergeLoop_spec r rest hstart.2 hstart.1
    have hres : create_line_ranges_with_context line_numbers context_lines =
        mergeLoop r rest := by
      unfold create_line_ranges_with_context
      rw [hScase]
    refine ⟨hres ▸ hc1, hres ▸ hc2, ?_⟩
    intro n hn x hx1 hx2
    have hmem : mkRange context_lines n ∈ r :: rest := by
      have : mkRange context_lines n ∈ line_numbers.map (mkRange context_lines) :=
        List.mem_map_of_mem _ hn
      exact hperm.mem_iff.mpr this
    obtain ⟨m, hm, hm1, hm2⟩ := hcov (mkRange context_lines n) hmem
    rw [hres]
    refine ⟨m, hm, ?_, ?_⟩
    · exact le_trans hm1 hx1
    · exact le_trans hx2 hm2

/-- Witness for C1 at the spec's own example `merge({5,7,15}, context=2)`:
the window around line 5 covers column 4. -/
theorem line_ranges_cover_witness :
    ∃ m ∈ create_line_ranges_with_context [5, 7, 15] 2, m.1 ≤ 4 ∧ (4 : Int) ≤ m.2 :=
  (line_ranges_sorted_disjoint_cover [5, 7, 15] 2).2.2 5 (by decide) 4 (by decide)
    (by decide)

/-! Section: Line structure of file contents

Model of how the shell tools (`sed -n 'a,bp'`, `nl -ba`) see a file: a file is
a list of lines, the final line may or may not be newline-terminated, and an
empty file has no lines. -/

/-- Lines of a file content, as `sed`/`nl` count them: every `'\n'` terminates
a line, and a non-empty trailing segment without a final `'\n'` is also a
line.  The empty content has no lines. -/
def splitLines : List Char → List (List Char)
  | [] => []
  | c :: rest =>
    if c = '\n' then [] :: splitLines rest
    else
      match splitLines rest with
      | [] => [[c]]
      | l :: ls => (c :: l) :: ls

/-- Join lines with a single `'\n'` separator (no trailing newline). -/
def joinWithNL : List (List Char) → List Char
  | [] => []
  | [l] => l
  | l :: l2 :: ls => l ++ '\n' :: joinWithNL (l2 :: ls)

/-- Whether the content ends with a newline character. -/
def endsNL : List Char → Bool
  | [] => false
  | [c] => c = '\n'
  | _ :: c :: rest => endsNL (c :: rest)

/-- Output text produced by printing the given lines; every line is followed
by `'\n'` except that the last line is newline-terminated only when `tr` is
true.  No lines produce no output. -/
def render : List (List Char) → Bool → List Char
  | [], _ => []
  | l :: ls, tr => joinWithNL (l :: ls) ++ (if tr then ['\n'] else [])

theorem splitLines_cons (c : Char) (rest : List Char) :
    splitLines (c :: rest) =
      if c = '\n' then [] :: splitLines rest
      else
        match splitLines rest with
        | [] => [[c]]
        | l :: ls => (c :: l) :: ls := rfl

theorem splitLines_ne_nil (s : List Char) (h : s ≠ []) : splitLines s ≠ [] := by
  cases s with
  | nil => exact absurd rfl h
  | cons c rest =>
    by_cases hc : c = '\n'
    · simp [splitLines, hc]
    · cases hsp : splitLines rest with
      | nil => simp [splitLines, hc, hsp]
      | cons l ls => simp [splitLines, hc, hsp]

theorem render_singleton (l : List Char) (tr : Bool) :
    render [l] tr = l ++ (if tr then ['\n'] else []) := rfl

theorem render_cons_cons (l l2 : List Char) (ls : List (List Char)) (tr : Bool) :
    render (l :: l2 :: ls) tr = l ++ '\n' :: render (l2 :: ls) tr := by
  simp [render, joinWithNL, List.append_assoc]

/-- Round trip: printing all lines of a content, with a final newline exactly
when the content had one, reproduces the content. -/
theorem render_splitLines (s : List Char) : render (splitLines s) (endsNL s) = s := by
  induction s with
  | nil => rfl
  | cons c rest ih =>
    by_cases hc : c = '\n'
    · subst hc
      cases rest with
      | nil => rfl
      | cons c2 rest2 =>
        obtain ⟨l, ls, hls⟩ : ∃ l ls, splitLines (c2 :: rest2) = l :: ls := by
          cases hsp : splitLines (c2 :: rest2) with
          | nil => exact absurd hsp (splitLines_ne_nil _ (by simp))
          | cons l ls => exact ⟨l, ls, rfl⟩
        have h1 : splitLines ('\n' :: c2 :: rest2) = [] :: l :: ls := by
          rw [splitLines_cons, if_pos rfl, hls]
        have h2 : endsNL ('\n' :: c2 :: rest2) = endsNL (c2 :: rest2) := rfl
        rw [h1, h2, render_cons_cons, ← hls, ih]
        rfl
    · cases rest with
      | nil =>
        have h1 : splitLines [c] = [[c]] := by simp [splitLines, hc]
        have h2 : endsNL [c] = false := by simp [endsNL, hc]
        rw [h1, h2, render_singleton]
        simp
      | cons c2 rest2 =>
        obtain ⟨l, ls, hls⟩ : ∃ l ls, splitLines (c2 :: rest2) = l :: ls := by
          cases hsp : splitLines (c2 :: rest2) with
          | nil => exact absurd hsp (splitLines_ne_nil _ (by simp))
          | cons l ls => exact ⟨l, ls, rfl⟩
        have h1 : splitLines (c :: c2 :: rest2) = (c :: l) :: ls := by
          rw [splitLines_cons, if_neg hc, hls]
        have h2 : endsNL (c :: c2 :: rest2) = endsNL (c2 :: rest2) := rfl
        rw [h1, h2]
        rw [hls] at ih
        cases ls with
        | nil =>
          rw [render_singleton] at ih ⊢
          simpa using congrArg (fun t => c :: t) ih
        | cons l2 ls2 =>
          rw [render_cons_cons] at ih ⊢
          simpa using congrArg (fun t => c :: t) ih

theorem splitLines_append_newline (l rest : List Char) (h : '\n' ∉ l) :
    splitLines (l ++ '\n' :: rest) = l :: splitLines rest := by
  induction l with
  | nil => simp [splitLines]
  | cons c cs ih =>
    have hc : c ≠ '\n' := fun hh => h (by rw [hh]; exact List.mem_cons_self _ _)
    have hcs : '\n' ∉ cs := fun hh => h (List.mem_cons_of_mem _ hh)
    have hrec := ih hcs
    rw [List.cons_append, splitLines_cons, if_neg hc, hrec]

theorem splitLines_no_nl_singleton (l : List Char) (h : '\n' ∉ l) (hne : l ≠ []) :
    splitLines l = [l] := by
  induction l with
  | nil => exact absurd rfl hne
  | cons c cs ih =>
    have hc : c ≠ '\n' := fun hh => h (by rw [hh]; exact List.mem_cons_self _ _)
    cases cs with
    | nil => simp [splitLines, hc]
    | cons c2 cs2 =>
      have hcs := ih (fun hh => h (List.mem_cons_of_mem _ hh)) (by simp)
      rw [splitLines_cons, if_neg hc, hcs]

/-- Inverse of `render_splitLines`: re-splitting printed lines recovers the
lines, provided no line contains a newline and, when there is no trailing
newline, the last printed line is non-empty. -/
theorem splitLines_render (sel : List (List Char)) (tr : Bool)
    (hn : ∀ l ∈ sel, '\n' ∉ l)
    (hlast : tr = false → sel.getLast? ≠ some []) :
    splitLines (render sel tr) = sel := by
  induction sel with
  | nil => cases tr <;> rfl
  | cons l ls ih =>
    cases ls with
    | nil =>
      cases tr with
      | true =>
        rw [render_singleton]
        simpa using splitLines_append_newline l [] (hn l (List.mem_cons_self _ _))
      | false =>
        have hlne : l ≠ [] := by
          intro hnil
          exact hlast rfl (by rw [hnil]; rfl)
        rw [render_singleton]
        simpa using splitLines_no_nl_singleton l (hn l (List.mem_cons_self _ _)) hlne
    | cons l2 ls2 =>
      rw [render_cons_cons,
        splitLines_append_newline _ _ (hn l (List.mem_cons_self _ _))]
      congr 1
      refine ih (fun x hx => hn x (List.mem_cons_of_mem _ hx)) ?_
      intro htr
      have := hlast htr
      rwa [List.getLast?_cons_cons] at this

theorem mem_splitLines_no_newline (s : List Char) :
    ∀ l ∈ splitLines s, '\n' ∉ l := by
  induction s with
  | nil => simp [splitLines]
  | cons c rest ih =>
    intro l hl
    rw [splitLines_cons] at hl
    by_cases hc : c = '\n'
    · rw [if_pos hc] at hl
      rcases List.mem_cons.mp hl with h1 | h1
      · rw [h1]; simp
      · exact ih l h1
    · rw [if_neg hc] at hl
      cases hsp : splitLines rest with
      | nil =>
        rw [hsp] at hl
        have hl2 : l ∈ [[c]] := hl
        have heq : l = [c] := by simpa using hl2
        rw [heq]
        simp [Ne.symm hc]
      | cons l0 ls =>
        rw [hsp] at hl
        have hl2 : l ∈ (c :: l0) :: ls := hl
        rcases List.mem_cons.mp hl2 with h1 | h1
        · rw [h1]
          intro hmem
          rcases List.mem_cons.mp hmem with hh | hh
          · exact hc hh.symm
          · exact ih l0 (by rw [hsp]; exact List.mem_cons_self _ _) hh
        · exact ih l (by rw [hsp]; exact List.mem_cons_of_mem _ h1)

theorem splitLines_getLast_ne_nil (s : List Char) (h : endsNL s = false) :
    (splitLines s).getLast? ≠ some [] := by
  induction s with
  | nil => simp [splitLines]
  | cons c rest ih =>
    cases rest with
    | nil =>
      have hc : c ≠ '\n' := by
        intro hh
        rw [show endsNL [c] = decide (c = '\n') from rfl] at h
        simp [hh] at h
      rw [splitLines_cons, if_neg hc]
      simp [splitLines]
    | cons c2 rest2 =>
      have h2 : endsNL (c2 :: rest2) = false := h
      have ihh := ih h2
      obtain ⟨l0, ls, hsp⟩ : ∃ l0 ls, splitLines (c2 :: rest2) = l0 :: ls := by
        cases hsp : splitLines (c2 :: rest2) with
        | nil => exact absurd hsp (splitLines_ne_nil _ (by simp))
        | cons l0 ls => exact ⟨l0, ls, rfl⟩
      rw [hsp] at ihh
      rw [splitLines_cons]
      by_cases hc : c = '\n'
      · rw [if_pos hc, hsp]
        rwa [List.getLast?_cons_cons]
      · rw [if_neg hc, hsp]
        show ((c :: l0) :: ls).getLast? ≠ some []
        cases ls with
        | nil => simp
        | cons l1 ls1 =>
          rw [List.getLast?_cons_cons]
          rwa [List.getLast?_cons_cons] at ihh

theorem drop_length_sub_one {α : Type} (l : List α) (h : l ≠ []) :
    ∃ x, l.drop (l.length - 1) = [x] ∧ l.getLast? = some x := by
  induction l with
  | nil => exact absurd rfl h
  | cons a t ih =>
    cases t with
    | nil => exact ⟨a, rfl, rfl⟩
    | cons b t2 =>
      obtain ⟨x, h1, h2⟩ := ih (by simp)
      refine ⟨x, ?_, ?_⟩
      · have : (a :: b :: t2).length - 1 = (b :: t2).length := by simp
        rw [this]
        simpa using h1
      · rwa [List.getLast?_cons_cons]

/-! Section: Reading a line range (`read_file` content semantics)

`read_file` builds `sed -n '{start},{end}p'` (optionally after `nl -ba`) and
returns its stdout.  The `sed` selection semantics modelled here: lines are
1-based; an end below the start prints only the start line; an end beyond the
last line clamps to the last line; `$` (used when `end_line < 1`) is the last
line; every printed line is newline-terminated except that the file's final
line is printed without a trailing newline when the file has none. -/

/-- Decimal digit character, `'0'`..`'9'` for `d < 10`. -/
def digitChar (d : Nat) : Char := Char.ofNat (48 + d)

/-- Fueled digit expansion (structural, so that it evaluates). -/
def natDigitsAux : Nat → Nat → List Char
  | 0, _ => []
  | fuel + 1, n =>
    if n < 10 then [digitChar n]
    else natDigitsAux fuel (n / 10) ++ [digitChar (n % 10)]

/-- Decimal digits of a natural number, most significant first. -/
def natDigits (n : Nat) : List Char := natDigitsAux (n + 1) n

/-- Line numbering applied by `nl -ba`: a six-column right-justified line
number, a tab, then the line. -/
def nlFormat (i : Nat) (l : List Char) : List Char :=
  List.replicate (6 - (natDigits i).length) ' ' ++ natDigits i ++ '\t' :: l

/-- Number all lines 1-based, as `nl -ba` does. -/
def numberAll (ls : List (List Char)) : List (List Char) :=
  ls.enum.map (fun p => nlFormat (p.1 + 1) p.2)

/-- Effective start line: the source clamps `start_line = max(1, start_line)`. -/
def effStart (start_line : Int) : Nat := (max 1 start_line).toNat

/-- Effective (inclusive) end line selected by `sed -n 'a,bp'` on a file of
`n` lines, where `end_line < 1` was replaced by `$` in the source. -/
def effEnd (n : Nat) (start_line end_line : Int) : Nat :=
  if end_line < 1 then n else min (max end_line.toNat (effStart start_line)) n

/-- Lines fed to the `sed` selection: the raw lines, or the `nl`-numbered
lines when `include_line_numbers` is true. -/
def linesFor (content : List Char) (numbered : Bool) : List (List Char) :=
  if numbered then numberAll (splitLines content) else splitLines content

/-- Output of the selection `s..e` (1-based, inclusive) over lines `ls` of
the file `content`: the selected lines, newline-terminated except that the
file's final line keeps the file's own trailing-newline status. -/
def readCore (ls : List (List Char)) (content : List Char) (s e : Nat) : List Char :=
  render ((ls.drop (s - 1)).take (e + 1 - s))
    (if e < ls.length then true else endsNL content)

/-- Content-level embedding of `read_file`: raw stdout of the line-extraction
command for the given file content. -/
def readContent (content : List Char) (start_line end_line : Int)
    (numbered : Bool) : List Char :=
  readCore (linesFor content numbered) content (effStart start_line)
    (effEnd (linesFor content numbered).length start_line end_line)

theorem natDigitsAux_no_newline (fuel : Nat) : ∀ n, '\n' ∉ natDigitsAux fuel n := by
  induction fuel with
  | zero => intro n; simp [natDigitsAux]
  | succ fuel ih =>
    intro n
    have hd : ∀ d, d < 10 → digitChar d ≠ '\n' := by decide
    show '\n' ∉ natDigitsAux (fuel + 1) n
    unfold natDigitsAux
    by_cases h : n < 10
    · rw [if_pos h]
      simp [Ne.symm (hd n h)]
    · rw [if_neg h]
      intro hmem
      rcases List.mem_append.mp hmem with h1 | h1
      · exact ih (n / 10) h1
      · have h2 : '\n' = digitChar (n % 10) := by simpa using h1
        exact hd (n % 10) (Nat.mod_lt _ (by omega)) h2.symm

theorem natDigits_no_newline (n : Nat) : '\n' ∉ natDigits n :=
  natDigitsAux_no_newline (n + 1) n

theorem nlFormat_no_newline (i : Nat) (l : List Char) (h : '\n' ∉ l) :
    '\n' ∉ nlFormat i l := by
  intro hmem
  rcases List.mem_append.mp hmem with h1 | h1
  · rcases List.mem_append.mp h1 with h2 | h2
    · have := List.eq_of_mem_replicate h2
      simp at this
    · exact natDigits_no_newline i h2
  · rcases List.mem_cons.mp h1 with h2 | h2
    · simp at h2
    · exact h h2

theorem nlFormat_ne_nil (i : Nat) (l : List Char) : nlFormat i l ≠ [] := by
  simp [nlFormat]

theorem numberAll_length (ls : List (List Char)) :
    (numberAll ls).length = ls.length := by
  simp [numberAll]

theorem mem_numberAll (ls : List (List Char)) (l : List Char)
    (h : l ∈ numberAll ls) : ∃ i l0, l0 ∈ ls ∧ l = nlFormat i l0 := by
  simp only [numberAll, List.mem_map] at h
  obtain ⟨p, hp, heq⟩ := h
  refine ⟨p.1 + 1, p.2, ?_, heq.symm⟩
  have hsnd : ls.enum.map Prod.snd = ls := List.enum_map_snd ls
  rw [← hsnd]
  exact List.mem_map_of_mem Prod.snd hp

theorem linesFor_length (content : List Char) (b : Bool) :
    (linesFor content b).length = (splitLines content).length := by
  cases b <;> simp [linesFor, numberAll_length]

theorem linesFor_no_newline (content : List Char) (b : Bool) :
    ∀ l ∈ linesFor content b, '\n' ∉ l := by
  cases b with
  | false => simpa [linesFor] using mem_splitLines_no_newline content
  | true =>
    intro l hl
    simp only [linesFor, if_pos rfl] at hl
    obtain ⟨i, l0, hl0, heq⟩ := mem_numberAll _ _ hl
    rw [heq]
    exact nlFormat_no_newline i l0 (mem_splitLines_no_newline content l0 hl0)

theorem linesFor_getLast_ne_nil (content : List Char) (b : Bool)
    (h : endsNL content = false) : (linesFor content b).getLast? ≠ some [] := by
  cases b with
  | false => simpa [linesFor] using splitLines_getLast_ne_nil content h
  | true =>
    intro hc
    have hmem : ([] : List Char) ∈ linesFor content true :=
      List.mem_of_getLast?_eq_some hc
    simp only [linesFor, if_pos rfl] at hmem
    obtain ⟨i, l0, _, heq⟩ := mem_numberAll _ _ hmem
    exact nlFormat_ne_nil i l0 heq.symm

/-- C3 core: a full unnumbered read (`start=1`, `end=-1`) returns the exact
file content. -/
theorem readContent_full (content : List Char) :
    readContent content 1 (-1) false = content := by
  have h1 : effStart 1 = 1 := by unfold effStart; omega
  have h2 : effEnd (linesFor content false).length 1 (-1) =
      (linesFor content false).length := by
    unfold effEnd
    rw [if_pos (by omega)]
  unfold readContent readCore
  rw [h1, h2]
  have h3 : linesFor content false = splitLines content := by simp [linesFor]
  rw [h3]
  rw [List.drop_zero]
  have h4 : (splitLines content).length + 1 - 1 = (splitLines content).length := by
    omega
  rw [h4, List.take_length]
  rw [if_neg (lt_irrefl _)]
  exact render_splitLines content

theorem readContent_eq (content : List Char) (s e : Int) (b : Bool) :
    readContent content s e b =
      readCore (linesFor content b) content (effStart s)
        (effEnd (linesFor content b).length s e) := rfl

/-- C7: the line-selection policy of `read_file`: the start line is clamped
to at least 1; an end line below 1 reads to end of file; an end line between
1 and the (clamped) start returns only the start line; an end line beyond the
file length clamps to the available lines. -/
theorem read_file_line_policy (content : List Char) (s e : Int) (b : Bool) :
    readContent content s e b = readContent content (max 1 s) e b ∧
    (e < 1 →
      readContent content s e b =
        readContent content s ((splitLines content).length : Int) b) ∧
    (1 ≤ e → e < max 1 s →
      splitLines (readContent content s e b) =
        ((linesFor content b).drop (effStart s - 1)).take 1) ∧
    (((splitLines content).length : Int) ≤ e →
      readContent content s e b =
        readContent content s ((splitLines content).length : Int) b) := by
  have hlen := linesFor_length content b
  refine ⟨?_, ?_, ?_, ?_⟩
  · have hA : effStart (max 1 s) = effStart s := by unfold effStart; omega
    simp only [readContent_eq, effEnd, hA]
  · intro he
    have h1 : effEnd (linesFor content b).length s e =
        (linesFor content b).length := by
      unfold effEnd
      rw [if_pos he]
    have h2 : effEnd (linesFor content b).length s
        ((splitLines content).length : Int) = (linesFor content b).length := by
      unfold effEnd effStart
      split
      · rfl
      · omega
    simp only [readContent_eq, h1, h2]
  · intro h1e h2e
    have hsge : 1 ≤ effStart s := by unfold effStart; omega
    have hE : effEnd (linesFor content b).length s e =
        min (effStart s) (linesFor content b).length := by
      unfold effEnd effStart
      rw [if_neg (by omega)]
      unfold effStart at *
      omega
    rw [readContent_eq, hE]
    by_cases hcase : effStart s ≤ (linesFor content b).length
    · rw [min_eq_left hcase]
      unfold readCore
      have hone : effStart s + 1 - effStart s = 1 := by omega
      rw [hone]
      apply splitLines_render
      · intro l hl
        exact linesFor_no_newline content b l
          (List.mem_of_mem_drop (List.mem_of_mem_take hl))
      · intro hfl
        by_cases hlt : effStart s < (linesFor content b).length
        · rw [if_pos hlt] at hfl
          exact absurd hfl (by simp)
        · rw [if_neg hlt] at hfl
          have hseq : effStart s = (linesFor content b).length :=
            le_antisymm hcase (not_lt.mp hlt)
          have hne : linesFor content b ≠ [] := by
            intro hnil
            rw [hnil] at hseq
            simp at hseq
            omega
          obtain ⟨x, hx1, hx2⟩ := drop_length_sub_one (linesFor content b) hne
          rw [hseq, hx1]
          have hxne : x ≠ [] := by
            intro hxx
            rw [hxx] at hx2
            exact linesFor_getLast_ne_nil content b hfl hx2
          simp [hxne]
    · rw [min_eq_right (by omega)]
      unfold readCore
      have hdrop : (linesFor content b).drop (effStart s - 1) = [] :=
        List.drop_eq_nil_of_le (by omega)
      rw [hdrop]
      simp [render, splitLines]
  · intro he
    have h1 : effEnd (linesFor content b).length s e =
        (linesFor content b).length := by
      unfold effEnd effStart
      split
      · rfl
      · omega
    have h2 : effEnd (linesFor content b).length s
        ((splitLines content).length : Int) = (linesFor content b).length := by
      unfold effEnd effStart
      split
      · rfl
      · omega
    simp only [readContent_eq, h1, h2]

/-- Witness for C7 at a concrete three-line file: reading with
`end_line = 1 < start_line = 2` returns exactly the single start line. -/
theorem read_file_line_policy_witness :
    splitLines (readContent (String.toList ("a\nb\nc")) 2 1 false) =
      ((linesFor (String.toList ("a\nb\nc")) false).drop (effStart 2 - 1)).take 1 :=
  (read_file_line_policy (String.toList ("a\nb\nc")) 2 1 false).2.2.1 (by decide)
    (by decide)

/-! Section: Executor output truncation

Every command's stdout/stderr passes through `exec_in_container`, which cuts
each stream at a fixed cap and appends a visible marker
(`MAX_OUTPUT_LENGTH`, container.py).  Operations that return a command's
stdout — in particular `read_file` — therefore return the truncated
stream. -/

/-- The fixed output cap (`MAX_OUTPUT_LENGTH`). -/
def MAX_OUTPUT_LENGTH : Nat := 10000

/-- The marker appended to a truncated stream. -/
def truncMarker : List Char := '\n' :: String.toList ("... [output truncated]")

/-- Truncation applied independently to each captured stream. -/
def truncateStream (s : List Char) : List Char :=
  if MAX_OUTPUT_LENGTH < s.length then s.take MAX_OUTPUT_LENGTH ++ truncMarker else s

/-- Characters `shlex.quote` leaves unquoted: letters, digits, underscore,
at-sign, percent, plus, equals, colon, comma, dot, slash and dash.  A path
made only of these characters is a single literal shell word even when
interpolated unquoted. -/
def shlexSafeChar (c : Char) : Bool :=
  c.isAlphanum || c = '_' || c = '@' || c = '%' || c = '+' || c = '=' ||
    c = ':' || c = ',' || c = '.' || c = '/' || c = '-'

/-! Section: Container filesystems and the file operations built on `exec` -/

/-- The fixed set of addressable containers (`ContainerName` literal type). -/
inductive ContainerName : Type
  | backend
  | frontend
deriving DecidableEq

/-- State of the container filesystems: each container maps file paths to
file contents.  This is the state `exec_in_container` commands act on. -/
def FS : Type := ContainerName → List Char → Option (List Char)

/-- Embedding of `read_file`: the `sed`/`nl` pipeline fails (non-zero exit)
when the file does not exist, and the source then raises an exception,
modelled as `Except.error`; otherwise the function returns
`exec_in_container`'s stdout, i.e. the selected lines truncated at the
10,000-character cap with the marker appended.  The path is interpolated
unquoted into the command, so the model addresses the named file only when
the path forms a single shell word; theorems about reads of specific files
carry that restriction (`shlexSafeChar`) as a hypothesis. -/
def read_file (fs : FS) (c : ContainerName) (file_path : List Char)
    (start_line end_line : Int) (numbered : Bool) : Except (List Char) (List Char) :=
  match fs c file_path with
  | none => Except.error (String.toList ("Failed to read file"))
  | some content =>
    Except.ok (truncateStream (readContent content start_line end_line numbered))

/-- Embedding of `overwrite_file`: the content is base64-encoded, piped
through `base64 -d` and redirected into the file; the encode/decode round
trip is the identity on the content, so the file ends up holding exactly
`content`. -/
def overwrite_file (fs : FS) (c : ContainerName) (file_path content : List Char) : FS :=
  fun c2 p2 => if c2 = c ∧ p2 = file_path then some content else fs c2 p2

/-- C3 counterexample: the write-then-read round trip fails beyond the
output cap — a file of 10,001 `a` characters reads back as the
10,000-character prefix with the truncation marker appended, which is not
the written content. -/
theorem roundtrip_truncation_counterexample :
    read_file (overwrite_file (fun _ _ => none) ContainerName.backend
        (String.toList ("f.txt")) (List.replicate 10001 'a'))
      ContainerName.backend (String.toList ("f.txt")) 1 (-1) false =
      Except.ok (List.replicate 10000 'a' ++ truncMarker) ∧
    List.replicate 10000 'a' ++ truncMarker ≠ List.replicate 10001 'a' := by
  constructor
  · have h : overwrite_file (fun _ _ => none) ContainerName.backend
        (String.toList ("f.txt")) (List.replicate 10001 'a')
        ContainerName.backend (String.toList ("f.txt")) =
        some (List.replicate 10001 'a') := by
      unfold overwrite_file
      rw [if_pos ⟨rfl, rfl⟩]
    unfold read_file
    rw [h]
    show Except.ok (truncateStream
      (readContent (List.replicate 10001 'a') 1 (-1) false)) = _
    rw [readContent_full]
    unfold truncateStream
    rw [if_pos (by rw [List.length_replicate]; norm_num [MAX_OUTPUT_LENGTH])]
    rw [List.take_replicate]
    norm_num [MAX_OUTPUT_LENGTH]
  · intro heq
    have hlen := congrArg List.length heq
    rw [List.length_append, List.length_replicate, List.length_replicate] at hlen
    have hm : truncMarker.length = 23 := by decide
    omega

/-- C3 (amended): for a path that is a single shell word and content within
the 10,000-character output cap, overwriting a file and then reading it back
in full (start 1, end -1, no line numbers) returns exactly the written
content; beyond the cap the read returns the truncated prefix with the
marker. -/
theorem overwrite_then_read_roundtrip (fs : FS) (c : ContainerName)
    (file_path content : List Char)
    (_hpath : file_path.all shlexSafeChar = true)
    (hlen : content.length ≤ MAX_OUTPUT_LENGTH) :
    read_file (overwrite_file fs c file_path content) c file_path 1 (-1) false =
      Except.ok content := by
  have h : overwrite_file fs c file_path content c file_path = some content := by
    unfold overwrite_file
    rw [if_pos ⟨rfl, rfl⟩]
  unfold read_file
  rw [h]
  show Except.ok (truncateStream (readContent content 1 (-1) false)) =
    Except.ok content
  rw [readContent_full]
  unfold truncateStream
  rw [if_neg (by omega)]

/-- Witness for the amended C3 theorem: a two-line file with embedded
newline round-trips exactly. -/
theorem overwrite_then_read_roundtrip_witness :
    read_file (overwrite_file (fun _ _ => none) ContainerName.backend
        (String.toList ("x.txt")) (String.toList ("hi\nthere")))
      ContainerName.backend (String.toList ("x.txt")) 1 (-1) false =
      Except.ok (String.toList ("hi\nthere")) :=
  overwrite_then_read_roundtrip (fun _ _ => none) ContainerName.backend
    (String.toList ("x.txt")) (String.toList ("hi\nthere")) (by decide) (by decide)

/-! Section: Occurrence counting and replacement (`str.count` / `str.replace`)

Python's `count` counts non-overlapping occurrences left to right and
`replace` replaces them; the empty target occurs `len + 1` times.  The
scanners below use explicit fuel (one unit per consumed character) so that
they are structurally recursive and fully evaluable. -/

/-- Payload of the `data` field of a response: route-specific data on
success, an error dictionary on failure. -/
inductive RouteData (α : Type) : Type
  | payload (d : α)
  | errorData (msg : List Char)
deriving DecidableEq

/-- Embedding of the `ShpblResponse` envelope (success flag, optional
message/data/streams/exit code, and the unparsed-response hack fields). -/
structure SResp (α : Type) : Type where
  success : Bool
  message : Option (List Char)
  data : Option (RouteData α)
  stdout : Option (List Char)
  stderr : Option (List Char)
  exit_code : Option Int
  internalDoNotParse : Bool
  unparsedStr : Option (List Char)
deriving DecidableEq

/-- String form of a container name. -/
def containerStr : ContainerName → List Char
  | ContainerName.backend => String.toList ("backend")
  | ContainerName.frontend => String.toList ("frontend")

/-- Text before the first `'/'`, i.e. Python `file_path.split("/")[0]`. -/
def firstSegment (p : List Char) : List Char := p.takeWhile (fun c => c != '/')

/-- The container named by the path's first segment, if valid; the routes
assert membership of the first segment in the container set. -/
def containerOfPath (p : List Char) : Option ContainerName :=
  if firstSegment p = containerStr ContainerName.backend then
    some ContainerName.backend
  else if firstSegment p = containerStr ContainerName.frontend then
    some ContainerName.frontend
  else none

/-- Python `file_path[len(container) + 1 :]`: the path with the container
prefix and one separator removed. -/
def innerPath (p : List Char) : List Char := p.drop ((firstSegment p).length + 1)

/-! Section: The replace-string route -/

/-- Concrete filesystem holding one file `backend/x.txt` with content `hello`. -/
def fsHello : FS := fun c p =>
  if c = ContainerName.backend ∧ p = String.toList ("x.txt") then
    some (String.toList ("hello")) else none

/-- Embedding of the response construction of `exec_in_container` from the
decoded stdout/stderr streams and the exit code: both streams are truncated,
`success` is `exit_code == 0`, and the remaining envelope fields are left at
their defaults.  The `ShpblResponse` model has no truncation field. -/
def processExecOutput (stdout stderr : List Char) (exit_code : Int) : SResp Unit :=
  ⟨decide (exit_code = 0), none, none, some (truncateStream stdout),
    some (truncateStream stderr), some exit_code, false, none⟩

/-- C5 counterexample: a 10,001-character stdout is truncated to the cap with
the visible marker, but the returned result is identical to an untruncated
run in every field other than the stream text itself — `ShpblResponse`
carries no `truncated` flag, so no component of the result marks that
truncation occurred. -/
theorem truncation_no_flag_counterexample :
    (processExecOutput (List.replicate 10001 'a') [] 0).stdout =
      some (List.replicate 10000 'a' ++ truncMarker) ∧
    (processExecOutput (List.replicate 10001 'a') [] 0).success =
      (processExecOutput (List.replicate 10 'a') [] 0).success ∧
    (processExecOutput (List.replicate 10001 'a') [] 0).message =
      (processExecOutput (List.replicate 10 'a') [] 0).message ∧
    (processExecOutput (List.replicate 10001 'a') [] 0).data =
      (processExecOutput (List.replicate 10 'a') [] 0).data ∧
    (processExecOutput (List.replicate 10001 'a') [] 0).exit_code =
      (processExecOutput (List.replicate 10 'a') [] 0).exit_code ∧
    (processExecOutput (List.replicate 10 'a') [] 0).stdout =
      some (List.replicate 10 'a') := by
  refine ⟨?_, rfl, rfl, rfl, rfl, ?_⟩
  · show some (truncateStream (List.replicate 10001 'a')) = _
    unfold truncateStream
    rw [if_pos (by rw [List.length_replicate]; norm_num [MAX_OUTPUT_LENGTH])]
    rw [List.take_replicate]
    norm_num [MAX_OUTPUT_LENGTH]
  · show some (truncateStream (List.replicate 10 'a')) = _
    unfold truncateStream
    rw [if_neg (by rw [List.length_replicate]; norm_num [MAX_OUTPUT_LENGTH])]

/-- C5 (amended): each stream is deterministically cut at the 10,000-character
cap with the visible truncation marker appended (and left intact below the
cap); truncation is observable only through the marker in the stream text,
while `success` reflects only the exit code. -/
theorem truncation_cap_marker (out err : List Char) (ec : Int) :
    (out.length ≤ MAX_OUTPUT_LENGTH →
      (processExecOutput out err ec).stdout = some out) ∧
    (MAX_OUTPUT_LENGTH < out.length →
      (processExecOutput out err ec).stdout =
        some (out.take MAX_OUTPUT_LENGTH ++ truncMarker) ∧
      ∀ s, (processExecOutput out err ec).stdout = some s →
        s.length = MAX_OUTPUT_LENGTH + truncMarker.length) ∧
    (err.length ≤ MAX_OUTPUT_LENGTH →
      (processExecOutput out err ec).stderr = some err) ∧
    (MAX_OUTPUT_LENGTH < err.length →
      (processExecOutput out err ec).stderr =
        some (err.take MAX_OUTPUT_LENGTH ++ truncMarker)) ∧
    ((processExecOutput out err ec).success = true ↔ ec = 0) := by
  refine ⟨?_, ?_, ?_, ?_, ?_⟩
  · intro h
    show some (truncateStream out) = some out
    unfold truncateStream
    rw [if_neg (by omega)]
  · intro h
    constructor
    · show some (truncateStream out) = _
      unfold truncateStream
      rw [if_pos h]
    · intro s hs
      have heq : s = out.take MAX_OUTPUT_LENGTH ++ truncMarker := by
        have h3 : truncateStream out = s := Option.some.inj hs
        rw [← h3]
        unfold truncateStream
        rw [if_pos h]
      rw [heq]
      rw [List.length_append, List.length_take]
      omega
  · intro h
    show some (truncateStream err) = some err
    unfold truncateStream
    rw [if_neg (by omega)]
  · intro h
    show some (truncateStream err) = _
    unfold truncateStream
    rw [if_pos h]
  · constructor
    · intro h
      exact of_decide_eq_true h
    · intro h
      exact decide_eq_true h

/-- Witness for the amended C5 theorem: a short stream passes through
untruncated. -/
theorem truncation_cap_marker_witness :
    (processExecOutput (String.toList ("ok")) [] 0).stdout =
      some (String.toList ("ok")) :=
  (truncation_cap_marker (String.toList ("ok")) [] 0).1 (by decide)

/-! Section: Command safety filter (`BLOCKED_COMMAND_PATTERNS`)

The source compiles a list of case-insensitive regexes and the request
validator rejects a command as soon as one of them matches.  The pattern
shapes that occur are: word-bounded words (`\bdocker\b`), plain substrings
(`/etc/passwd`), substrings with a trailing word boundary (`/proc\b`), and
one word-bounded pattern with inner whitespace (`\bcat\s+\.env\b`).  Word
characters are letters, digits and underscore; `\b` holds between a word
character and a non-word character or a string edge. -/

/-- Regex word character (`\w`). -/
def isWordChar (c : Char) : Bool := c.isAlphanum || c = '_'

/-- Case-insensitive prefix test: `p` (given lowercase) is a prefix of the
lowercased `s`. -/
def lowerPref : List Char → List Char → Bool
  | [], _ => true
  | _ :: _, [] => false
  | p :: ps, c :: cs => (c.toLower = p) && lowerPref ps cs

/-- True when position `k` of `l` is a right word boundary: the string ends
there or continues with a non-word character. -/
def afterBoundary (k : Nat) (l : List Char) : Bool :=
  match l.drop k with
  | [] => true
  | c :: _ => !isWordChar c

/-- Scanner for `\bw\b` (for a word `w` of word characters): at each
position, the previous character must not be a word character, the word must
match case-insensitively, and a right boundary must follow. -/
def wbScanAux (w : List Char) : Bool → List Char → Bool
  | _, [] => false
  | prev, c :: cs =>
    (!prev && lowerPref w (c :: cs) && afterBoundary w.length (c :: cs)) ||
      wbScanAux w (isWordChar c) cs

/-- Word-bounded case-insensitive containment, the semantics of the
`\bword\b` patterns. -/
def containsWB (w s : List Char) : Bool := wbScanAux w false s

/-- Case-insensitive substring containment, the semantics of the plain
substring patterns. -/
def containsCI (p : List Char) : List Char → Bool
  | [] => p.isEmpty
  | c :: cs => lowerPref p (c :: cs) || containsCI p cs

/-- Case-insensitive substring with a trailing word boundary, the semantics
of `/proc\b` and `/sys\b`. -/
def containsCIRightB (p : List Char) : List Char → Bool
  | [] => false
  | c :: cs => (lowerPref p (c :: cs) && afterBoundary p.length (c :: cs)) ||
      containsCIRightB p cs

/-- Match at one position for `\bcat\s+\.env\b`: `cat`, at least one
whitespace character, then `.env` with a right boundary. -/
def catEnvAt (l : List Char) : Bool :=
  lowerPref (String.toList ("cat")) l &&
    (let r := l.drop 3
     let wn := (r.takeWhile (fun c => c.isWhitespace)).length
     decide (1 ≤ wn) && lowerPref (String.toList (".env")) (r.drop wn) &&
       afterBoundary 4 (r.drop wn))

/-- Scanner for `\bcat\s+\.env\b`. -/
def catEnvScan : Bool → List Char → Bool
  | _, [] => false
  | prev, c :: cs => (!prev && catEnvAt (c :: cs)) || catEnvScan (isWordChar c) cs

/-- The blocked-pattern list: a name for the error message and a matcher,
in the order of the source. -/
def BLOCKED_COMMAND_PATTERNS : List (List Char × (List Char → Bool)) :=
  [ (String.toList ("env"), fun s => containsWB (String.toList ("env")) s),
    (String.toList ("printenv"), fun s => containsWB (String.toList ("printenv")) s),
    (String.toList ("cat .env"), fun s => catEnvScan false s),
    (String.toList ("/etc/shadow"), fun s => containsCI (String.toList ("/etc/shadow")) s),
    (String.toList ("/etc/passwd"), fun s => containsCI (String.toList ("/etc/passwd")) s),
    (String.toList ("docker"), fun s => containsWB (String.toList ("docker")) s),
    (String.toList ("curl"), fun s => containsWB (String.toList ("curl")) s),
    (String.toList ("wget"), fun s => containsWB (String.toList ("wget")) s),
    (String.toList ("nc"), fun s => containsWB (String.toList ("nc")) s),
    (String.toList ("ncat"), fun s => containsWB (String.toList ("ncat")) s),
    (String.toList ("netcat"), fun s => containsWB (String.toList ("netcat")) s),
    (String.toList ("ssh"), fun s => containsWB (String.toList ("ssh")) s),
    (String.toList ("scp"), fun s => containsWB (String.toList ("scp")) s),
    (String.toList ("nsenter"), fun s => containsWB (String.toList ("nsenter")) s),
    (String.toList ("socat"), fun s => containsWB (String.toList ("socat")) s),
    (String.toList ("../.."), fun s => containsCI (String.toList ("../..")) s),
    (String.toList ("/proc"), fun s => containsCIRightB (String.toList ("/proc")) s),
    (String.toList ("/sys"), fun s => containsCIRightB (String.toList ("/sys")) s),
    (String.toList ("/var/run/docker.sock"),
      fun s => containsCI (String.toList ("/var/run/docker.sock")) s) ]

/-- Embedding of `validate_command_safety`: the name of the first pattern
that matches the raw command, or `none` when the command is accepted. -/
def blockedBy (cmd : List Char) : Option (List Char) :=
  (BLOCKED_COMMAND_PATTERNS.find? (fun p => p.2 cmd)).map (fun p => p.1)

/-- Embedding of the `run-command` route over an exec oracle: the pydantic
validator runs while the request is parsed, so a blocked command is rejected
(`Except.error`, a validation failure) before any container is contacted;
otherwise the oracle's result is returned as-is. -/
def run_command_route (execOracle : List Char → SResp Unit) (cmd : List Char) :
    Except (List Char) (SResp Unit) :=
  match blockedBy cmd with
  | some pat =>
    Except.error (String.toList ("Command blocked: matches restricted pattern ") ++ pat)
  | none => Except.ok (execOracle cmd)

/-- The four matchers singled out by the claim. -/
def matchesFour (cmd : List Char) : Bool :=
  containsWB (String.toList ("curl")) cmd || containsWB (String.toList ("wget")) cmd ||
    containsWB (String.toList ("docker")) cmd ||
    containsCI (String.toList ("/etc/passwd")) cmd

/-- C6: any command containing word-bounded `curl`, `wget` or `docker`, or
the substring `/etc/passwd` (case-insensitively), is rejected with a
validation error whose outcome does not depend on the exec oracle (no
container is contacted); and those letters inside a larger word, as in
`dockerfile_helpers`, do not trip those patterns, and that command passes
the whole validator. -/
theorem run_command_blocklist :
    (∀ (cmd : List Char) (o1 o2 : List Char → SResp Unit), matchesFour cmd = true →
      (∃ m, run_command_route o1 cmd = Except.error m) ∧
        run_command_route o1 cmd = run_command_route o2 cmd) ∧
    containsWB (String.toList ("docker")) (String.toList ("ls dockerfile_helpers")) =
      false ∧
    containsWB (String.toList ("curl")) (String.toList ("ls dockerfile_helpers")) =
      false ∧
    containsWB (String.toList ("wget")) (String.toList ("ls dockerfile_helpers")) =
      false ∧
    containsCI (String.toList ("/etc/passwd")) (String.toList ("ls dockerfile_helpers")) =
      false ∧
    blockedBy (String.toList ("ls dockerfile_helpers")) = none := by
  refine ⟨?_, by decide, by decide, by decide, by decide, by decide⟩
  intro cmd o1 o2 hm
  have hsome : (BLOCKED_COMMAND_PATTERNS.find? (fun p => p.2 cmd)).isSome := by
    rw [List.find?_isSome]
    unfold matchesFour at hm
    rcases Bool.or_eq_true_iff.mp hm with hm | hm
    · rcases Bool.or_eq_true_iff.mp hm with hm | hm
      · rcases Bool.or_eq_true_iff.mp hm with hm | hm
        · exact ⟨(String.toList ("curl"), fun s => containsWB (String.toList ("curl")) s),
            by simp [BLOCKED_COMMAND_PATTERNS], hm⟩
        · exact ⟨(String.toList ("wget"), fun s => containsWB (String.toList ("wget")) s),
            by simp [BLOCKED_COMMAND_PATTERNS], hm⟩
      · exact ⟨(String.toList ("docker"), fun s => containsWB (String.toList ("docker")) s),
          by simp [BLOCKED_COMMAND_PATTERNS], hm⟩
    · exact ⟨(String.toList ("/etc/passwd"),
        fun s => containsCI (String.toList ("/etc/passwd")) s),
        by simp [BLOCKED_COMMAND_PATTERNS], hm⟩
  obtain ⟨p, hp⟩ := Option.isSome_iff_exists.mp hsome
  have hb : blockedBy cmd = some p.1 := by
    unfold blockedBy
    rw [hp]
    rfl
  constructor
  · refine ⟨String.toList ("Command blocked: matches restricted pattern ") ++ p.1, ?_⟩
    unfold run_command_route
    rw [hb]
  · unfold run_command_route
    rw [hb]

/-- Witness for C6: a concrete `curl` command is rejected independently of
the oracle. -/
theorem run_command_blocklist_witness :
    ∃ m, run_command_route (fun _ => processExecOutput [] [] 0)
        (String.toList ("curl http://example.com")) = Except.error m :=
  (run_command_blocklist.1 (String.toList ("curl http://example.com"))
    (fun _ => processExecOutput [] [] 0) (fun _ => processExecOutput [] [] 0)
    (by decide)).1

/-! Section: Dry search (`dry_search`) -/

/-- Result of executing the find+grep command in one container. -/
structure ExecOutcome : Type where
  success : Bool
  stdout : List Char
  stderr : List Char
deriving DecidableEq

/-- Python `str.strip()` (whitespace at both ends). -/
def pyStrip (l : List Char) : List Char :=
  ((l.dropWhile (fun c => c.isWhitespace)).reverse.dropWhile
    (fun c => c.isWhitespace)).reverse

/-- Python `str.split(ch)`: split at every occurrence, keeping empty parts. -/
def splitOnCh (ch : Char) : List Char → List (List Char)
  | [] => [[]]
  | c :: cs =>
    if c = ch then [] :: splitOnCh ch cs
    else
      match splitOnCh ch cs with
      | [] => [[c]]
      | p :: ps => (c :: p) :: ps

/-- Value of a non-empty all-digit string. -/
def digitsVal (l : List Char) : Option Nat :=
  if l ≠ [] ∧ l.all (fun c => c.isDigit) then
    some (l.foldl (fun acc c => acc * 10 + (c.toNat - 48)) 0)
  else none

/-- Python `int(str)`: strip whitespace, optional sign, digits; anything
else raises `ValueError` (`none`). -/
def parseIntPy (l : List Char) : Option Int :=
  match pyStrip l with
  | '-' :: ds => (digitsVal ds).map (fun n => -(n : Int))
  | '+' :: ds => (digitsVal ds).map (fun n => (n : Int))
  | ds => (digitsVal ds).map (fun n => (n : Int))

/-- Add one `file:line` match to the per-file accumulator, keeping first-seen
file order (Python dict insertion order) and deduplicating line numbers
(Python set). -/
def addMatch : List (List Char × List Int) → List Char → Int →
    List (List Char × List Int)
  | [], f, n => [(f, [n])]
  | (g, ns) :: rest, f, n =>
    if g = f then (g, if n ∈ ns then ns else ns ++ [n]) :: rest
    else (g, ns) :: addMatch rest f n

/-- Parse one output line: blank lines are skipped; a line without a second
`:`-field raises `IndexError` and a non-numeric line number raises
`ValueError` (both modelled as `none`, an exception aborting the call). -/
def parseFileLine (acc : List (List Char × List Int)) (line : List Char) :
    Option (List (List Char × List Int)) :=
  if pyStrip line = [] then some acc
  else
    match splitOnCh ':' line with
    | [] => none
    | [_] => none
    | f :: p1 :: _ =>
      match parseIntPy p1 with
      | none => none
      | some n => some (addMatch acc (pyStrip f) n)

/-- Parse the whole `file:line` stdout of one container. -/
def parseStdout (stdout : List Char) : Option (List (List Char × List Int)) :=
  (splitLines stdout).foldlM parseFileLine []

/-- Ascending sort, Python `sorted` on the set of line numbers. -/
def sortInts (l : List Int) : List Int :=
  List.insertionSort (fun a b => a ≤ b) l

/-- Python `file_path.lstrip('./')`: remove every leading `.` or `/`. -/
def lstripDotSlash (f : List Char) : List Char :=
  f.dropWhile (fun c => c = '.' || c = '/')

/-- Re-key a file path under its owning container. -/
def containerPrefixedPath (c : ContainerName) (f : List Char) : List Char :=
  containerStr c ++ '/' :: lstripDotSlash f

/-- Outcome of scanning one container: `Except.error` when parsing its
output raises, `Option` distinguishing a failed command (whose error string
the source appends to a local list that is never returned) from parsed
matches. -/
def containerScan (r : ExecOutcome) :
    Except (List Char) (Option (List (List Char × List Int))) :=
  if r.success then
    match parseStdout r.stdout with
    | none => Except.error (String.toList ("invalid literal for int() with base 10"))
    | some m => Except.ok (some m)
  else Except.ok none

/-- Contribution of one container's scan to the merged result: a failed
container contributes nothing. -/
def containerContrib (ctx : Int) (c : ContainerName) :
    Option (List (List Char × List Int)) → List (List Char × List (Int × Int))
  | none => []
  | some m => m.map (fun fl =>
      (containerPrefixedPath c fl.1,
        create_line_ranges_with_context (sortInts fl.2) ctx))

/-- Embedding of `dry_search` over an exec oracle giving each container's
command outcome.  The containers are scanned in the order of the
`ContainerName` literal (`frontend`, `backend`); a parse exception in an
earlier container propagates before the later one is processed.  Note that
the per-container error strings of failed commands are collected into a
local list the source never returns: a failed container is simply absent
from the result. -/
def dry_search (exec : ContainerName → ExecOutcome) (context_lines : Int) :
    Except (List Char) (List (List Char × List (Int × Int))) :=
  match containerScan (exec ContainerName.frontend),
      containerScan (exec ContainerName.backend) with
  | Except.error e, _ => Except.error e
  | Except.ok _, Except.error e => Except.error e
  | Except.ok rf, Except.ok rb =>
    Except.ok (containerContrib context_lines ContainerName.frontend rf ++
      containerContrib context_lines ContainerName.backend rb)

/-- Embedding of the `dry-search` route: the result is wrapped in a success
envelope; an exception is caught and reported as a failure envelope. -/
def dry_search_workspace (exec : ContainerName → ExecOutcome) (context_lines : Int) :
    SResp (List (List Char × List (Int × Int))) :=
  match dry_search exec context_lines with
  | Except.ok d => ⟨true, none, some (RouteData.payload d), none, none, none, false, none⟩
  | Except.error e =>
    ⟨false, some e, some (RouteData.errorData e), none, none, none, false, none⟩

/-- An oracle under which both containers' commands fail. -/
def failBoth : ContainerName → ExecOutcome :=
  fun _ => ⟨false, [], String.toList ("boom")⟩

/-- C4 counterexample: when every container's command fails, the call does
not fail and no error is surfaced — the route returns a success envelope
with an empty mapping, no message, and no per-container error list. -/
theorem dry_search_all_fail_counterexample :
    dry_search_workspace failBoth 2 =
      ⟨true, none, some (RouteData.payload []), none, none, none, false, none⟩ := rfl

/-- Replace every failed container's outcome by a successful empty scan. -/
def maskFailures (exec : ContainerName → ExecOutcome) : ContainerName → ExecOutcome :=
  fun c => if (exec c).success then exec c else ⟨true, [], []⟩

/-- C4 (amended): an error from one container's command does not abort the
others and leaves no trace: `dry_search` returns exactly what it would
return if the failed containers had succeeded with no matches.  Successful
containers' results are therefore still returned, but failed containers are
not reported to the caller, and the call succeeds even when every container
fails. -/
theorem dry_search_failures_invisible (exec : ContainerName → ExecOutcome)
    (context_lines : Int) :
    dry_search exec context_lines = dry_search (maskFailures exec) context_lines := by
  have hmasked : ∀ c, (exec c).success = false →
      containerScan (maskFailures exec c) = Except.ok (some []) := by
    intro c hc
    unfold maskFailures
    rw [hc]
    rfl
  have hsame : ∀ c, (exec c).success = true →
      maskFailures exec c = exec c := by
    intro c hc
    unfold maskFailures
    rw [hc]
    rfl
  unfold dry_search
  by_cases hf : (exec ContainerName.frontend).success
  · rw [hsame ContainerName.frontend hf]
    by_cases hb : (exec ContainerName.backend).success
    · rw [hsame ContainerName.backend hb]
    · have h1 : containerScan (exec ContainerName.backend) = Except.ok none := by
        unfold containerScan
        rw [if_neg (by simp [hb])]
      rw [h1, hmasked ContainerName.backend (by simp at hb; exact hb)]
      rcases containerScan (exec ContainerName.frontend) with e | rf
      · rfl
      · rfl
  · have h1 : containerScan (exec ContainerName.frontend) = Except.ok none := by
      unfold containerScan
      rw [if_neg (by simp [hf])]
    rw [h1, hmasked ContainerName.frontend (by simp at hf; exact hf)]
    by_cases hb : (exec ContainerName.backend).success
    · rw [hsame ContainerName.backend hb]
      rcases containerScan (exec ContainerName.backend) with e | rb
      · rfl
      · rfl
    · have h2 : containerScan (exec ContainerName.backend) = Except.ok none := by
        unfold containerScan
        rw [if_neg (by simp [hb])]
      rw [h2, hmasked ContainerName.backend (by simp at hb; exact hb)]
      rfl

/-! Section: The read route (`read_file_workspace`) -/

/-- Envelope built by the read route's `try` block from the read outcome:
any exception raised inside the `try` is caught and reported as a failure
envelope. -/
def readRouteBody (fs : FS) (c : ContainerName) (inner : List Char)
    (start_line end_line : Int) (numbered : Bool) : SResp (List Char) :=
  match read_file fs c inner start_line end_line numbered with
  | Except.ok content =>
    ⟨true, some (String.toList ("File read successfully")),
      some (RouteData.payload content), none, none, none, true, some content⟩
  | Except.error e =>
    ⟨false, some e, some (RouteData.errorData e), none, none, none, false, none⟩

/-- Embedding of the `read` route.  The container-name assertion runs before
the `try` block, so a path whose first segment is not a valid container name
raises an uncaught `AssertionError`, modelled as `Except.error`; the read
request model does not constrain the path pattern, so this input is
reachable. -/
def read_file_workspace (fs : FS) (file_path : List Char)
    (start_line end_line : Int) (numbered : Bool) :
    Except (List Char) (SResp (List Char)) :=
  match containerOfPath file_path with
  | none =>
    Except.error (String.toList ("Container could not be determined from file_path"))
  | some c =>
    Except.ok (readRouteBody fs c (innerPath file_path) start_line end_line numbered)

/-- A filesystem with no files. -/
def emptyFS : FS := fun _ _ => none

/-- C8 counterexample: a read request whose path prefix is not a valid
container name makes the assertion outside the `try` block fail, and the
exception crosses the boundary instead of an envelope being returned. -/
theorem read_route_assertion_escapes :
    read_file_workspace emptyFS (String.toList ("bogus/x.txt")) 1 (-1) false =
      Except.error
        (String.toList ("Container could not be determined from file_path")) := rfl

/-- C8 (amended): for paths with a valid container prefix the read route
always returns an envelope (success mirroring the read outcome, exceptions
caught); but an invalid container prefix raises an uncaught assertion that
crosses the boundary. -/
theorem workspace_envelope_amended (fs : FS) (file_path : List Char)
    (start_line end_line : Int) (numbered : Bool) :
    (∀ c, containerOfPath file_path = some c →
      ∃ resp, read_file_workspace fs file_path start_line end_line numbered =
          Except.ok resp ∧
        (resp.success = true ↔
          ∃ content, read_file fs c (innerPath file_path) start_line end_line
              numbered = Except.ok content)) ∧
    (containerOfPath file_path = none →
      read_file_workspace fs file_path start_line end_line numbered =
        Except.error
          (String.toList ("Container could not be determined from file_path"))) := by
  constructor
  · intro c hc
    have hstep : read_file_workspace fs file_path start_line end_line numbered =
        Except.ok (readRouteBody fs c (innerPath file_path) start_line end_line
          numbered) := by
      unfold read_file_workspace
      rw [hc]
    refine ⟨readRouteBody fs c (innerPath file_path) start_line end_line numbered,
      hstep, ?_⟩
    unfold readRouteBody
    cases hread : read_file fs c (innerPath file_path) start_line end_line numbered with
    | error e => simp
    | ok content => simp
  · intro hc
    unfold read_file_workspace
    rw [hc]

/-- Witness for the amended C8 theorem at a valid container prefix. -/
theorem workspace_envelope_amended_witness :
    ∃ resp, read_file_workspace fsHello (String.toList ("backend/x.txt")) 1 (-1)
        false = Except.ok resp ∧
      (resp.success = true ↔
        ∃ content, read_file fsHello ContainerName.backend
            (innerPath (String.toList ("backend/x.txt"))) 1 (-1) false =
          Except.ok content) :=
  (workspace_envelope_amended fsHello (String.toList ("backend/x.txt")) 1 (-1)
    false).1 ContainerName.backend (by decide)

/-! Section: Shell command construction of the file operations

The source builds each operation's shell command by f-string interpolation.
`overwrite_file`, `delete_file`, `create_directory` and `directory_exists`
pass the path through `shlex.quote`; `read_file` interpolates the raw path.
The command strings themselves are modelled here to check that claim. -/

/-- The single-quote character. -/
def sq : Char := Char.ofNat 39

/-- The double-quote character. -/
def dq : Char := Char.ofNat 34

/-- Embedding of `shlex.quote`: empty becomes a pair of quotes, safe strings
pass through, anything else is wrapped in single quotes with each inner
single quote rewritten to a quote-double-quote sandwich. -/
def shlexQuote (s : List Char) : List Char :=
  if s = [] then [sq, sq]
  else if s.all shlexSafeChar then s
  else sq :: (s.flatMap (fun c => if c = sq then [sq, dq, sq, dq, sq] else [c])) ++ [sq]

/-- Decimal rendering of a Python int. -/
def intStr (i : Int) : List Char :=
  if i < 0 then '-' :: natDigits i.natAbs else natDigits i.toNat

/-- The `sed` address range `{start},{end}p` after the source's
substitutions (`start` clamped to 1, `$` when `end < 1`). -/
def sedRangeSpec (start_line end_line : Int) : List Char :=
  intStr (max 1 start_line) ++ ',' ::
    ((if end_line < 1 then ['$'] else intStr end_line) ++ ['p'])

/-- Command built by `read_file` without line numbers:
`sed -n '{start},{end}p' {file_path}` — the path is interpolated raw. -/
def readCmdPlain (file_path : List Char) (start_line end_line : Int) : List Char :=
  String.toList ("sed -n ") ++ sq :: (sedRangeSpec start_line end_line ++
    sq :: ' ' :: file_path)

/-- Command built by `read_file` with line numbers:
`nl -ba {file_path} | sed -n '{start},{end}p'` — the path is raw here too. -/
def readCmdNumbered (file_path : List Char) (start_line end_line : Int) : List Char :=
  String.toList ("nl -ba ") ++ file_path ++ String.toList (" | sed -n ") ++
    sq :: (sedRangeSpec start_line end_line ++ [sq])

/-- Command built by `overwrite_file`; the content is already base64-encoded
when interpolated. -/
def overwriteCmd (encoded file_path : List Char) : List Char :=
  String.toList ("echo ") ++ encoded ++ String.toList (" | base64 -d > ") ++
    shlexQuote file_path

/-- Command built by `delete_file`. -/
def deleteCmd (file_path : List Char) : List Char :=
  String.toList ("rm -f ") ++ shlexQuote file_path

/-- Command built by `create_directory`. -/
def mkdirCmd (dir_path : List Char) : List Char :=
  String.toList ("mkdir -p ") ++ shlexQuote dir_path

/-- Command built by `directory_exists`. -/
def testDirCmd (dir_path : List Char) : List Char :=
  String.toList ("test -d ") ++ shlexQuote dir_path

/-- Exact substring containment. -/
def containsSub (p : List Char) : List Char → Bool
  | [] => p.isEmpty
  | c :: cs => p.isPrefixOf (c :: cs) || containsSub p cs

theorem containsSub_suffix (pre q : List Char) : containsSub q (pre ++ q) = true := by
  induction pre with
  | nil =>
    cases q with
    | nil => rfl
    | cons c cs =>
      show ((c :: cs).isPrefixOf (c :: cs) || containsSub (c :: cs) cs) = true
      rw [List.isPrefixOf_iff_prefix.mpr (List.prefix_refl _)]
      rfl
  | cons c pre ih =>
    show (q.isPrefixOf (c :: (pre ++ q)) || containsSub q (pre ++ q)) = true
    rw [ih, Bool.or_true]

/-- C9 counterexample: `read_file` interpolates the path unquoted — for the
path `a b.txt` the quoted form differs from the raw path, the built command
embeds the raw path, and the quoted form appears nowhere in the command. -/
theorem read_cmd_unquoted_counterexample :
    shlexQuote (String.toList ("a b.txt")) ≠ String.toList ("a b.txt") ∧
    readCmdPlain (String.toList ("a b.txt")) 1 (-1) =
      String.toList ("sed -n ") ++ sq :: (String.toList ("1,$p") ++
        sq :: ' ' :: String.toList ("a b.txt")) ∧
    containsSub (shlexQuote (String.toList ("a b.txt")))
      (readCmdPlain (String.toList ("a b.txt")) 1 (-1)) = false := by
  refine ⟨by decide, by decide, by decide⟩

/-- C9 (amended): the mutating and probing operations (`overwrite`, `delete`,
`create_directory`, `directory_exists`) shell-quote the path individually,
and the quoted form is a literal part of their commands; the two `read_file`
commands instead concatenate the raw path without quoting. -/
theorem path_quoting_amended (p encoded : List Char) (s e : Int) :
    deleteCmd p = String.toList ("rm -f ") ++ shlexQuote p ∧
    containsSub (shlexQuote p) (deleteCmd p) = true ∧
    mkdirCmd p = String.toList ("mkdir -p ") ++ shlexQuote p ∧
    containsSub (shlexQuote p) (mkdirCmd p) = true ∧
    testDirCmd p = String.toList ("test -d ") ++ shlexQuote p ∧
    containsSub (shlexQuote p) (testDirCmd p) = true ∧
    overwriteCmd encoded p =
      String.toList ("echo ") ++ encoded ++ String.toList (" | base64 -d > ") ++
        shlexQuote p ∧
    containsSub (shlexQuote p) (overwriteCmd encoded p) = true ∧
    readCmdPlain p s e =
      (String.toList ("sed -n ") ++ sq :: (sedRangeSpec s e ++ [sq, ' '])) ++ p ∧
    readCmdNumbered p s e =
      String.toList ("nl -ba ") ++ p ++ String.toList (" | sed -n ") ++
        sq :: (sedRangeSpec s e ++ [sq]) := by
  refine ⟨rfl, ?_, rfl, ?_, rfl, ?_, rfl, ?_, ?_, rfl⟩
  · exact containsSub_suffix _ _
  · exact containsSub_suffix _ _
  · exact containsSub_suffix _ _
  · show containsSub (shlexQuote p)
      ((String.toList ("echo ") ++ encoded ++ String.toList (" | base64 -d > ")) ++
        shlexQuote p) = true
    · exact containsSub_suffix _ _
  · unfold readCmdPlain
    simp [List.append_assoc]

/-! Section: Full search (`search` and the `search` route) -/

/-- Python `_dry_search_res.get(file_path, {})`: ranges recorded for a path,
empty when the path is absent. -/
def lookupPath (m : List (List Char × List (Int × Int))) (k : List Char) :
    List (Int × Int) :=
  match m.find? (fun entry => decide (entry.1 = k)) with
  | some entry => entry.2
  | none => []

/-- Read step of `search` on the ranges found for the requested path: when
ranges exist, one contiguous read from the first range's start to the last
range's end produces the single result block. -/
def searchLookup (fs : FS) (c : ContainerName) (inner : List Char) (numbered : Bool)
    (rs : List (Int × Int)) : Except (List Char) (List (List Char)) :=
  match rs.head?, rs.getLast? with
  | some r0, some rL =>
    match read_file fs c inner r0.1 rL.2 numbered with
    | Except.error e => Except.error e
    | Except.ok t => Except.ok [t]
  | _, _ => Except.ok []

/-- Embedding of `search`: resolve the container (assertion), re-run
`dry_search` fresh, and if the requested path has ranges perform one
contiguous read from the first range's start to the last range's end. -/
def search (exec : ContainerName → ExecOutcome) (fs : FS) (context_lines : Int)
    (file_path : List Char) (numbered : Bool) :
    Except (List Char) (List (List Char)) :=
  match containerOfPath file_path with
  | none =>
    Except.error (String.toList ("Container could not be determined from file_path"))
  | some c =>
    match dry_search exec context_lines with
    | Except.error e => Except.error e
    | Except.ok dsr =>
      searchLookup fs c (innerPath file_path) numbered (lookupPath dsr file_path)

/-- The route's pruning of the result list to `max_results` entries. -/
def prunedResults (max_results : Int) (l : List (List Char)) :
    List (List Char) × Bool :=
  if max_results < (l.length : Int) then (l.take max_results.toNat, true)
  else (l, false)

/-- Join of the result blocks for the unparsed response. -/
def joinBlocks : List (List Char) → List Char
  | [] => []
  | [x] => x
  | x :: y :: rest => x ++ String.toList ("\n---\n") ++ joinBlocks (y :: rest)

/-- Success envelope of the `search` route: the pruned results, the pruned
flag, and the joined unparsed content. -/
def searchRouteOk (max_results : Int) (l : List (List Char)) :
    SResp (List (List Char) × Bool) :=
  ⟨true, some (String.toList ("Search completed") ++
      (if (prunedResults max_results l).2 then
        String.toList (" (results pruned)") else [])),
    some (RouteData.payload (prunedResults max_results l)), none, none, none,
    true, some (joinBlocks (prunedResults max_results l).1)⟩

/-- Embedding of the `search` route: everything (including the assertion in
`search`) runs inside the `try`, so the route always returns an envelope. -/
def search_workspace (exec : ContainerName → ExecOutcome) (fs : FS)
    (context_lines max_results : Int) (file_path : List Char) (numbered : Bool) :
    SResp (List (List Char) × Bool) :=
  match search exec fs context_lines file_path numbered with
  | Except.error e =>
    ⟨false, some e, some (RouteData.errorData e), none, none, none, false, none⟩
  | Except.ok l => searchRouteOk max_results l

/-- C10: for a valid path prefix, `search` either propagates an error or
returns at most one block: the empty list exactly when the fresh dry search
has no ranges for the path, and otherwise one block read contiguously from
the first range's start to the last range's end — so the route's
`max_results` pruning never removes anything for `max_results ≥ 1`. -/
theorem search_single_block_spec (exec : ContainerName → ExecOutcome) (fs : FS)
    (context_lines : Int) (file_path : List Char) (numbered : Bool)
    (c : ContainerName) (hc : containerOfPath file_path = some c) :
    (∃ e, search exec fs context_lines file_path numbered = Except.error e) ∨
    ∃ l dsr, search exec fs context_lines file_path numbered = Except.ok l ∧
      dry_search exec context_lines = Except.ok dsr ∧
      l.length ≤ 1 ∧
      (l = [] ↔ lookupPath dsr file_path = []) ∧
      (∀ r0 rL, (lookupPath dsr file_path).head? = some r0 →
        (lookupPath dsr file_path).getLast? = some rL →
        ∃ t, read_file fs c (innerPath file_path) r0.1 rL.2 numbered =
            Except.ok t ∧ l = [t]) ∧
      (∀ max_results : Int, 1 ≤ max_results →
        search_workspace exec fs context_lines max_results file_path numbered =
          ⟨true, some (String.toList ("Search completed")),
            some (RouteData.payload (l, false)), none, none, none, true,
            some (joinBlocks l)⟩) := by
  cases hds : dry_search exec context_lines with
  | error e =>
    left
    refine ⟨e, ?_⟩
    unfold search
    rw [hc, hds]
  | ok dsr =>
    cases hl0 : (lookupPath dsr file_path).head? with
    | none =>
      have hnil : lookupPath dsr file_path = [] := by
        cases hll : lookupPath dsr file_path with
        | nil => rfl
        | cons a as => rw [hll] at hl0; simp at hl0
      right
      have hs : search exec fs context_lines file_path numbered = Except.ok [] := by
        unfold search
        rw [hc, hds]
        show searchLookup fs c (innerPath file_path) numbered
          (lookupPath dsr file_path) = Except.ok []
        rw [hnil]
        rfl
      refine ⟨[], dsr, hs, rfl, by simp, by simp [hnil], ?_, ?_⟩
      · intro r0 rL h0 _
        rw [hnil] at h0
        simp at h0
      · intro max_results hmr
        have hpr : prunedResults max_results [] = ([], false) := by
          unfold prunedResults
          rw [if_neg (by simp; omega)]
        unfold search_workspace
        rw [hs]
        show searchRouteOk max_results [] = _
        unfold searchRouteOk
        rw [hpr]
        simp [joinBlocks]
    | some r0 =>
      have hne : lookupPath dsr file_path ≠ [] := by
        intro h
        rw [h] at hl0
        simp at hl0
      obtain ⟨rL, hlL⟩ : ∃ rL, (lookupPath dsr file_path).getLast? = some rL := by
        cases hgl : (lookupPath dsr file_path).getLast? with
        | none => exact absurd (List.getLast?_eq_none_iff.mp hgl) hne
        | some rL => exact ⟨rL, rfl⟩
      cases hread : read_file fs c (innerPath file_path) r0.1 rL.2 numbered with
      | error e =>
        left
        refine ⟨e, ?_⟩
        unfold search
        rw [hc, hds]
        show searchLookup fs c (innerPath file_path) numbered
          (lookupPath dsr file_path) = Except.error e
        unfold searchLookup
        rw [hl0, hlL]
        show (match read_file fs c (innerPath file_path) r0.1 rL.2 numbered with
          | Except.error e => Except.error e
          | Except.ok t => Except.ok [t]) = Except.error e
        rw [hread]
      | ok t =>
        right
        have hs : search exec fs context_lines file_path numbered =
            Except.ok [t] := by
          unfold search
          rw [hc, hds]
          show searchLookup fs c (innerPath file_path) numbered
            (lookupPath dsr file_path) = Except.ok [t]
          unfold searchLookup
          rw [hl0, hlL]
          show (match read_file fs c (innerPath file_path) r0.1 rL.2 numbered with
            | Except.error e => Except.error e
            | Except.ok t => Except.ok [t]) = Except.ok [t]
          rw [hread]
        refine ⟨[t], dsr, hs, rfl, by simp, ?_, ?_, ?_⟩
        · constructor
          · intro h; simp at h
          · intro h; exact absurd h hne
        · intro r0' rL' h0' hL'
          rw [hl0] at h0'
          rw [hlL] at hL'
          have e0 : r0' = r0 := (Option.some.inj h0').symm
          have eL : rL' = rL := (Option.some.inj hL').symm
          rw [e0, eL]
          exact ⟨t, hread, rfl⟩
        · intro max_results hmr
          have hpr : prunedResults max_results [t] = ([t], false) := by
            unfold prunedResults
            rw [if_neg (by simp; omega)]
          unfold search_workspace
          rw [hs]
          show searchRouteOk max_results [t] = _
          unfold searchRouteOk
          rw [hpr]
          simp [joinBlocks]

/-- Oracle for the witness: the grep pipeline matches line 3 of `a.py` in
each container. -/
def oneMatch : ContainerName → ExecOutcome :=
  fun _ => ⟨true, String.toList ("./a.py:3"), []⟩

/-- Witness for C10 at a concrete oracle, filesystem and path. -/
theorem search_single_block_witness :
    (∃ e, search oneMatch fsHello 1 (String.toList ("frontend/a.py")) false =
      Except.error e) ∨
    ∃ l dsr, search oneMatch fsHello 1 (String.toList ("frontend/a.py")) false =
        Except.ok l ∧
      dry_search oneMatch 1 = Except.ok dsr ∧
      l.length ≤ 1 ∧
      (l = [] ↔ lookupPath dsr (String.toList ("frontend/a.py")) = []) ∧
      (∀ r0 rL, (lookupPath dsr (String.toList ("frontend/a.py"))).head? = some r0 →
        (lookupPath dsr (String.toList ("frontend/a.py"))).getLast? = some rL →
        ∃ t, read_file fsHello ContainerName.frontend
            (innerPath (String.toList ("frontend/a.py"))) r0.1 rL.2 false =
          Except.ok t ∧ l = [t]) ∧
      (∀ max_results : Int, 1 ≤ max_results →
        search_workspace oneMatch fsHello 1 max_results
            (String.toList ("frontend/a.py")) false =
          ⟨true, some (String.toList ("Search completed")),
            some (RouteData.payload (l, false)), none, none, none, true,
            some (joinBlocks l)⟩) :=
  search_single_block_spec oneMatch fsHello 1 (String.toList ("frontend/a.py"))
    false ContainerName.frontend (by decide)

end Shpbl
